import Mathlib

/-!
Verification development for the fedimint prediction-markets client
(`fedimint-prediction-markets-client`).  The client-side cache, the
sell-order sourcing loop, the order reconciler, the per-transaction state
machine, the payout-attestation aggregation and the gap-based order
recovery scanner are embedded as executable Lean functions, translated
from `src/lib.rs`, `src/states.rs` and `src/cli.rs`.  The external
transactional key-value store is represented by explicit ordered
association lists (ascending key order models the store's ordered prefix
scans); the federation API is a parameter of type `Nat → Option Order`.
-/

namespace PredictionMarkets

/-- Transaction output reference identifying a market
(`fedimint_core::OutPoint`); the txid is abstracted to a natural. -/
structure OutPoint where
  txid : Nat
  out_idx : Nat
deriving DecidableEq, Repr

/-- Order side (`fedimint-prediction-markets-common::Side`). -/
inductive Side where
  | buy
  | sell
deriving DecidableEq, Repr

/-- The fields of an `Order` record that the client logic reads and
writes (`fedimint-prediction-markets-common::Order`): market reference,
outcome index, side, price, and the three balance fields.  Amounts
(millisatoshis) and contract quantities are embedded as naturals. -/
structure Order where
  market : OutPoint
  outcome : Nat
  side : Side
  price : Nat
  quantity_waiting_for_match : Nat
  contract_of_outcome_balance : Nat
  bitcoin_balance : Nat
deriving DecidableEq, Repr

/-- `db::OrderIdSlot`: `Reserved` is written optimistically before
federation confirmation; `Order` holds the cached authoritative record. -/
inductive OrderIdSlot where
  | Reserved
  | Order (order : Order)
deriving DecidableEq, Repr

/-- Key of the two by-(market, outcome) secondary indices:
(market, outcome, order id). -/
abbrev MOKey := OutPoint × Nat × Nat

/-- Strict lexicographic comparison on index keys, mirroring the byte
order of the encoded composite database keys. -/
def moLt (a b : MOKey) : Bool :=
  decide (a.1.txid < b.1.txid ∨ (a.1.txid = b.1.txid ∧
    (a.1.out_idx < b.1.out_idx ∨ (a.1.out_idx = b.1.out_idx ∧
      (a.2.1 < b.2.1 ∨ (a.2.1 = b.2.1 ∧ a.2.2 < b.2.2))))))

/-- Insert a key into an ordered key set (a `()`-valued table), keeping
ascending key order and at most one copy of the key. -/
def insertMOKey (k : MOKey) : List MOKey → List MOKey
  | [] => [k]
  | x :: xs =>
    if moLt k x then k :: x :: xs
    else if k = x then x :: xs
    else x :: insertMOKey k xs

/-- Remove a key from an ordered key set. -/
def removeMOKey (k : MOKey) (l : List MOKey) : List MOKey :=
  l.filter (fun x => decide (x ≠ k))

/-- Insert an order id into the ordered needs-update key set. -/
def insertNat (x : Nat) : List Nat → List Nat
  | [] => [x]
  | y :: ys =>
    if x < y then x :: y :: ys
    else if x = y then y :: ys
    else y :: insertNat x ys

/-- Remove an order id from the ordered needs-update key set. -/
def removeNat (x : Nat) (l : List Nat) : List Nat :=
  l.filter (fun y => decide (y ≠ x))

/-- Point lookup in the order-slot table (`dbtx.get_value(&OrderKey)`). -/
def lookupSlot : List (Nat × OrderIdSlot) → Nat → Option OrderIdSlot
  | [], _ => none
  | (k, v) :: rest, id => if id = k then some v else lookupSlot rest id

/-- Insert (or replace) an entry of the order-slot table, keeping
ascending key order (`dbtx.insert_entry(&OrderKey, ...)`). -/
def insertSlot (x : Nat) (v : OrderIdSlot) : List (Nat × OrderIdSlot) → List (Nat × OrderIdSlot)
  | [] => [(x, v)]
  | (k, w) :: rest =>
    if x < k then (x, v) :: (k, w) :: rest
    else if x = k then (x, v) :: rest
    else (k, w) :: insertSlot x v rest

/-- Remove an entry of the order-slot table
(`dbtx.remove_entry(&OrderKey)`). -/
def removeSlot (x : Nat) (l : List (Nat × OrderIdSlot)) : List (Nat × OrderIdSlot) :=
  l.filter (fun p => decide (p.1 ≠ x))

/-- The module's slice of the client database: the order-slot table
(`OrderKey` entries, keyed by client-side order id), the two secondary
indices by (market, outcome), and the needs-update dirty set.  Each table
is an association list/key list in ascending key order, mirroring the
ordered key-value store. -/
structure ClientDb where
  orders : List (Nat × OrderIdSlot)
  ordersByMarketOutcome : List MOKey
  nonZeroOrdersByMarketOutcome : List MOKey
  orderNeedsUpdate : List Nat
deriving DecidableEq, Repr

/-- A database with no module entries at all. -/
def emptyDb : ClientDb := ⟨[], [], [], []⟩

/-- `get_order(id, from_local_cache = true)` (lib.rs): read the cached
slot; a `Reserved` slot and an absent slot both read back as `None`. -/
def get_order_cached (db : ClientDb) (id : Nat) : Option Order :=
  match lookupSlot db.orders id with
  | some OrderIdSlot.Reserved => none
  | some (OrderIdSlot.Order o) => some o
  | none => none

/-- `save_order_to_db` (lib.rs): write the order slot, write the
all-orders index, insert into or remove from the non-zero index according
to whether any of the three balance fields is nonzero, and clear the
needs-update flag. -/
def save_order_to_db (db : ClientDb) (id : Nat) (o : Order) : ClientDb where
  orders := insertSlot id (OrderIdSlot.Order o) db.orders
  ordersByMarketOutcome := insertMOKey (o.market, o.outcome, id) db.ordersByMarketOutcome
  nonZeroOrdersByMarketOutcome :=
    if o.quantity_waiting_for_match ≠ 0 ∨ o.contract_of_outcome_balance ≠ 0 ∨
        o.bitcoin_balance ≠ 0 then
      insertMOKey (o.market, o.outcome, id) db.nonZeroOrdersByMarketOutcome
    else
      removeMOKey (o.market, o.outcome, id) db.nonZeroOrdersByMarketOutcome
  orderNeedsUpdate := removeNat id db.orderNeedsUpdate

/-- `db_new_order` (lib.rs): optimistically reserve the order-id slot
before the federation has confirmed the new-order transaction. -/
def db_new_order (db : ClientDb) (order : Nat) : ClientDb :=
  { db with orders := insertSlot order OrderIdSlot.Reserved db.orders }

/-- `get_order(id, from_local_cache = false)` (lib.rs): fetch the
authoritative record; when it exists, persist it through
`save_order_to_db` and commit.  The federation API is the parameter
`fed`. -/
def get_order_federation (db : ClientDb) (fed : Nat → Option Order) (id : Nat) :
    Option Order × ClientDb :=
  match fed id with
  | some o => (some o, save_order_to_db db id o)
  | none => (none, db)

/-- Ascending scan of the non-zero index restricted to one
(market, outcome) prefix
(`find_by_prefix(&NonZeroOrdersByMarketOutcomePrefix2)`), yielding the
order ids. -/
def scanNonZero (db : ClientDb) (market : OutPoint) (outcome : Nat) : List Nat :=
  (db.nonZeroOrdersByMarketOutcome.filter
    (fun k => decide (k.1 = market ∧ k.2.1 = outcome))).map (fun k => k.2.2)

/-- Next client-side order id (lib.rs `new_order`): one past the largest
key of the order-slot table (first entry of the descending scan), or 0
when the table is empty. -/
def nextOrderId (db : ClientDb) : Nat :=
  db.orders.foldl (fun m p => max m (p.1 + 1)) 0

/-- Sum of the sourced amounts of a sources map (source order id paired
with the quantity taken from it; the 1:1 derived keypair of the id is the
map key in the Rust code). -/
def sumAmounts (l : List (Nat × Nat)) : Nat :=
  (l.map (fun p => p.2)).sum

/-- Sum of the settled-contract balances the cache holds for a list of
candidate order ids (an id whose slot is absent or `Reserved` counts 0). -/
def sumBal (db : ClientDb) (l : List Nat) : Nat :=
  (l.map (fun id =>
    match get_order_cached db id with
    | some o => o.contract_of_outcome_balance
    | none => 0)).sum

/-- The sell-order sourcing loop of lib.rs `new_order` (`Side::Sell` arm):
walk the candidate ids in scan order carrying the quantity sourced so far
and the sources map built so far; look each candidate up in the cache
(the code's `.expect` on a missing record is modelled as `none`), skip
candidates with zero settled-contract balance, take
`min(balance, quantity - sourced)` from the rest, and break as soon as
the sourced amount equals the requested quantity. -/
def sourceLoop (db : ClientDb) (quantity : Nat) :
    List Nat → Nat → List (Nat × Nat) → Option (List (Nat × Nat) × Nat)
  | [], sourced, acc => some (acc, sourced)
  | id :: rest, sourced, acc =>
    match get_order_cached db id with
    | none => none
    | some o =>
      if o.contract_of_outcome_balance = 0 then
        sourceLoop db quantity rest sourced acc
      else
        let q := min o.contract_of_outcome_balance (quantity - sourced)
        let acc2 := acc ++ [(id, q)]
        if quantity = sourced + q then some (acc2, sourced + q)
        else sourceLoop db quantity rest (sourced + q) acc2

/-- Result of the sell arm of `new_order`: on success the built
transaction carries the sources map and a `Reserved` slot is committed
for the new order id; on insufficient liquidity the function bails
before `db_new_order` and `commit_tx`, so the uncommitted transaction is
void and the returned database is the unchanged input; `cacheError`
models the `.expect` panic on a candidate id whose cached record is
missing. -/
inductive SellResult where
  | success (db : ClientDb) (order_id : Nat) (sources : List (Nat × Nat))
  | insufficient (db : ClientDb)
  | cacheError
deriving DecidableEq, Repr

/-- lib.rs `new_order`, `Side::Sell` arm: allocate the next order id,
scan the non-zero index for the (market, outcome) in ascending id order,
run the sourcing loop, bail with insufficient liquidity when the loop
falls short of the requested quantity, and otherwise reserve the id slot
and commit. -/
def new_order_sell (db : ClientDb) (market : OutPoint) (outcome price quantity : Nat) :
    SellResult :=
  let order_id := nextOrderId db
  let candidates := scanNonZero db market outcome
  match sourceLoop db quantity candidates 0 [] with
  | none => SellResult.cacheError
  | some (sources, sourced) =>
    if quantity = sourced then
      SellResult.success (db_new_order db order_id) order_id sources
    else
      SellResult.insufficient db

/-- lib.rs `new_order_accepted` (states.rs `set_order_needs_update` on
the accepted new-order transition): flag the target order and every
source order as needing an update. -/
def new_order_accepted (db : ClientDb) (order : Nat) (sources : List Nat) : ClientDb :=
  { db with orderNeedsUpdate :=
      sources.foldl (fun l s => insertNat s l) (insertNat order db.orderNeedsUpdate) }

/-- lib.rs `new_order_failed` (states.rs `unreserve_order_id_slot` on the
failed new-order transition): release the `Reserved` order-id slot. -/
def new_order_failed (db : ClientDb) (order : Nat) : ClientDb :=
  { db with orders := removeSlot order db.orders }

/-- lib.rs `cancel_order_accepted`: flag the cancelled order as needing
an update. -/
def cancel_order_accepted (db : ClientDb) (order : Nat) : ClientDb :=
  { db with orderNeedsUpdate := insertNat order db.orderNeedsUpdate }

/-- lib.rs `consume_order_bitcoin_balance_accepted`: flag the consumed
order as needing an update. -/
def consume_order_bitcoin_balance_accepted (db : ClientDb) (order : Nat) : ClientDb :=
  { db with orderNeedsUpdate := insertNat order db.orderNeedsUpdate }

/-- states.rs `PredictionMarketState`: one Submitted variant per
operation kind carrying the transaction id and operation context, and a
terminal Accepted and Failed variant each. -/
inductive PredictionMarketState where
  | NewMarket (tx_id : Nat)
  | NewMarketAccepted
  | NewMarketFailed
  | ProposePayout (tx_id : Nat)
  | ProposePayoutAccepted
  | ProposePayoutFailed
  | NewOrder (tx_id : Nat) (order : Nat) (sources : List Nat)
  | NewOrderAccepted
  | NewOrderFailed
  | CancelOrder (tx_id : Nat) (order : Nat)
  | CancelOrderAccepted
  | CancelOrderFailed
  | ConsumeOrderBitcoinBalance (tx_id : Nat) (order : Nat)
  | ConsumeOrderBitcoinBalanceAccepted
  | ConsumeOrderBitcoinBalanceFailed
  | ConsumePayoutControlBitcoinBalance (tx_id : Nat)
  | ConsumePayoutControlBitcoinBalanceAccepted
  | ConsumePayoutControlBitcoinBalanceFailed
deriving DecidableEq, Repr

/-- Terminal variants: every Accepted or Failed state. -/
def isTerminal : PredictionMarketState → Bool
  | PredictionMarketState.NewMarket _ => false
  | PredictionMarketState.ProposePayout _ => false
  | PredictionMarketState.NewOrder _ _ _ => false
  | PredictionMarketState.CancelOrder _ _ => false
  | PredictionMarketState.ConsumeOrderBitcoinBalance _ _ => false
  | PredictionMarketState.ConsumePayoutControlBitcoinBalance _ => false
  | _ => true

/-- states.rs `transitions`: each Submitted variant yields exactly one
transition, which awaits transaction finality (`res = true` means the
transaction was accepted) and applies the operation's cache side effect;
terminal variants yield no transitions. -/
def transitions :
    PredictionMarketState → List (Bool → ClientDb → ClientDb × PredictionMarketState)
  | PredictionMarketState.NewMarket _ =>
    [fun res db =>
      if res then (db, PredictionMarketState.NewMarketAccepted)
      else (db, PredictionMarketState.NewMarketFailed)]
  | PredictionMarketState.ProposePayout _ =>
    [fun res db =>
      if res then (db, PredictionMarketState.ProposePayoutAccepted)
      else (db, PredictionMarketState.ProposePayoutFailed)]
  | PredictionMarketState.NewOrder _ order sources =>
    [fun res db =>
      if res then (new_order_accepted db order sources, PredictionMarketState.NewOrderAccepted)
      else (new_order_failed db order, PredictionMarketState.NewOrderFailed)]
  | PredictionMarketState.CancelOrder _ order =>
    [fun res db =>
      if res then (cancel_order_accepted db order, PredictionMarketState.CancelOrderAccepted)
      else (db, PredictionMarketState.CancelOrderFailed)]
  | PredictionMarketState.ConsumeOrderBitcoinBalance _ order =>
    [fun res db =>
      if res then (consume_order_bitcoin_balance_accepted db order,
        PredictionMarketState.ConsumeOrderBitcoinBalanceAccepted)
      else (db, PredictionMarketState.ConsumeOrderBitcoinBalanceFailed)]
  | PredictionMarketState.ConsumePayoutControlBitcoinBalance _ =>
    [fun res db =>
      if res then (db, PredictionMarketState.ConsumePayoutControlBitcoinBalanceAccepted)
      else (db, PredictionMarketState.ConsumePayoutControlBitcoinBalanceFailed)]
  | _ => []

/-- Deliver a finality resolution to a state: fire the state's single
transition when one exists; a state with no transitions (a terminal one)
is left untouched, so a replayed resolution has no effect. -/
def fire (s : PredictionMarketState) (res : Bool) (db : ClientDb) :
    ClientDb × PredictionMarketState :=
  match transitions s with
  | [] => (db, s)
  | f :: _ => f res db

/-- lib.rs `sync_orders`, non-zero candidate scan: all non-zero index
entries, the entries of one market, or the entries of one
(market, outcome); the outcome restriction only applies when a market is
given, exactly as in the nested `match` of the source. -/
def scanNonZeroFiltered (db : ClientDb) (market : Option OutPoint) (outcome : Option Nat) :
    List Nat :=
  match market with
  | none => db.nonZeroOrdersByMarketOutcome.map (fun k => k.2.2)
  | some m =>
    match outcome with
    | none =>
      (db.nonZeroOrdersByMarketOutcome.filter (fun k => decide (k.1 = m))).map
        (fun k => k.2.2)
    | some oc => scanNonZero db m oc

/-- lib.rs `sync_orders`, candidate filter over the non-zero scan: each
candidate's cached record is read (the `.expect` on a missing record is
modelled as `none`), and a candidate is kept unless its waiting quantity
is zero and (payout syncing is off or its settled balance is zero). -/
def filterSyncCandidates (db : ClientDb) (spp : Bool) : List Nat → Option (List Nat)
  | [] => some []
  | id :: rest =>
    match get_order_cached db id with
    | none => none
    | some o =>
      match filterSyncCandidates db spp rest with
      | none => none
      | some l =>
        if o.quantity_waiting_for_match = 0 ∧
            (spp = false ∨ o.contract_of_outcome_balance = 0) then
          some l
        else
          some (id :: l)

/-- Market filter of lib.rs `sync_orders`, applied to the authoritative
record. -/
def marketOk : Option OutPoint → Order → Bool
  | none, _ => true
  | some m, o => decide (o.market = m)

/-- Outcome filter of lib.rs `sync_orders`, applied to the authoritative
record. -/
def outcomeOk : Option Nat → Order → Bool
  | none, _ => true
  | some oc, o => decide (o.outcome = oc)

/-- Fetch phase of lib.rs `sync_orders`: for every id to update, read the
cached value and the authoritative value (persisting the latter through
`get_order(id, false)`), and when they differ record the authoritative
order in the change map after the market and outcome filters pass; an
authoritative miss while the cache still holds a record models the
`.expect` panic as `none`. -/
def fetchLoop (fed : Nat → Option Order) (market : Option OutPoint) (outcome : Option Nat) :
    ClientDb → List Nat → List (Nat × Order) → Option (ClientDb × List (Nat × Order))
  | db, [], changed => some (db, changed)
  | db, id :: rest, changed =>
    match fed id with
    | some o =>
      let db2 := save_order_to_db db id o
      if get_order_cached db id = some o then
        fetchLoop fed market outcome db2 rest changed
      else if marketOk market o && outcomeOk outcome o then
        fetchLoop fed market outcome db2 rest (changed ++ [(id, o)])
      else
        fetchLoop fed market outcome db2 rest changed
    | none =>
      match get_order_cached db id with
      | none => fetchLoop fed market outcome db rest changed
      | some _ => none

/-- lib.rs `sync_orders`: candidates are the kept non-zero orders plus
every id of the needs-update set (collected into a key set, modelled by
`dedup`); each candidate is fetched from the federation; the result is
(ids fetched, final database, change map). -/
def sync_orders (db : ClientDb) (fed : Nat → Option Order) (spp : Bool)
    (market : Option OutPoint) (outcome : Option Nat) :
    Option (List Nat × ClientDb × List (Nat × Order)) :=
  match filterSyncCandidates db spp (scanNonZeroFiltered db market outcome) with
  | none => none
  | some keep =>
    let toUpdate := (keep ++ db.orderNeedsUpdate).dedup
    match fetchLoop fed market outcome db toUpdate [] with
    | none => none
    | some (db2, changed) => some (toUpdate, db2, changed)

/-- lib.rs `recover_orders`: starting at order id 0, query the
authoritative state for each successive id; a hit persists the order and
resets the consecutive-miss counter, a miss increments it (u16
arithmetic, so modulo 2 ^ 16 = 65536) and the loop breaks once the
counter equals `gap`.  `fuel` bounds the number of iterations that may
be unfolded; the loop returns the ids queried, the ids persisted and the
final database, or `none` when the fuel runs out first. -/
def recoverLoop (fed : Nat → Option Order) (gap : Nat) :
    Nat → Nat → Nat → List Nat → List Nat → ClientDb →
      Option (List Nat × List Nat × ClientDb)
  | 0, _, _, _, _, _ => none
  | fuel + 1, id, misses, queried, persisted, db =>
    match fed id with
    | some o =>
      recoverLoop fed gap fuel (id + 1) 0 (queried ++ [id]) (persisted ++ [id])
        (save_order_to_db db id o)
    | none =>
      if (misses + 1) % 65536 = gap then some (queried ++ [id], persisted, db)
      else recoverLoop fed gap fuel (id + 1) ((misses + 1) % 65536) (queried ++ [id])
        persisted db

/-- lib.rs `recover_orders` entry point: run the scan from id 0 with a
zero miss counter. -/
def recover_orders (fed : Nat → Option Order) (gap fuel : Nat) (db : ClientDb) :
    Option (List Nat × List Nat × ClientDb) :=
  recoverLoop fed gap fuel 0 0 [] [] db

/-- An external payout attestation (cli.rs `PayoutMarket`): the raw
signed event (the evidence carried to the federation), the attesting
payout-control identity, and the claimed payout vector, each abstracted
to naturals / lists of naturals. -/
structure Attestation where
  evidence : Nat
  payout_control : Nat
  event_payout : List Nat
deriving DecidableEq, Repr

/-- Lookup in the market's payout-control weight map
(`payout_control_weight_map.get`). -/
def lookupWeight : List (Nat × Nat) → Nat → Option Nat
  | [], _ => none
  | (k, w) :: rest, pc => if pc = k then some w else lookupWeight rest pc

/-- Add one kept attestation to the per-payout statistics (cli.rs
`event_payout_stats`): find the group of its payout vector, append the
evidence and add the identity's weight, creating the group when absent. -/
def addStat (stats : List (List Nat × List Nat × Nat)) (ep : List Nat) (ev w : Nat) :
    List (List Nat × List Nat × Nat) :=
  match stats with
  | [] => [(ep, [ev], w)]
  | (k, evs, tw) :: rest =>
    if k = ep then (k, evs ++ [ev], tw + w) :: rest
    else (k, evs, tw) :: addStat rest ep ev w

/-- Aggregation loop of cli.rs `PayoutMarket`: walk the fetched
attestations in order, drop those whose identity is absent from the
weight map, drop those whose identity was already seen (first-seen
deduplication), and fold the rest into the per-payout statistics. -/
def attLoop (wm : List (Nat × Nat)) :
    List Nat → List (List Nat × List Nat × Nat) → List Attestation →
      List (List Nat × List Nat × Nat)
  | _, stats, [] => stats
  | seen, stats, a :: rest =>
    match lookupWeight wm a.payout_control with
    | none => attLoop wm seen stats rest
    | some w =>
      if a.payout_control ∈ seen then attLoop wm seen stats rest
      else attLoop wm (a.payout_control :: seen)
        (addStat stats a.event_payout a.evidence w) rest

/-- Selection of cli.rs `PayoutMarket`: the first group whose summed
weight reaches the threshold (the source skips a group while
`weight_required_for_payout > total_weight`), yielding the payout vector
and its evidence bundle; `none` when no group qualifies. -/
def selectPayout (th : Nat) :
    List (List Nat × List Nat × Nat) → Option (List Nat × List Nat)
  | [] => none
  | (ep, evs, tw) :: rest =>
    if th ≤ tw then some (ep, evs) else selectPayout th rest

/-- cli.rs `PayoutMarket` aggregation: statistics over the fetched
attestations, then selection against the market's threshold.  A `some`
result models the submitted payout transaction carrying the evidence; a
`none` result models the `payout_submitted: false` report. -/
def payout_market (wm : List (Nat × Nat)) (th : Nat) (atts : List Attestation) :
    Option (List Nat × List Nat) :=
  selectPayout th (attLoop wm [] [] atts)

/-! Concrete fixtures used by the example-based parts of the claims. -/

/-- A market reference used by the concrete examples. -/
def mEx : OutPoint := ⟨7, 0⟩

/-- An order holding a settled-contract balance `b` on outcome 0 of
`mEx`, with the other two balance fields zero. -/
def settledOrder (b : Nat) : Order :=
  { market := mEx, outcome := 0, side := Side.sell, price := 500,
    quantity_waiting_for_match := 0, contract_of_outcome_balance := b,
    bitcoin_balance := 0 }

/-- Cache with sell-sourcing candidates: orders 1, 2, 3 on
(`mEx`, outcome 0) with settled balances 3, 5, 2, all indexed as
non-zero. -/
def dbEx : ClientDb where
  orders := [(1, OrderIdSlot.Order (settledOrder 3)),
             (2, OrderIdSlot.Order (settledOrder 5)),
             (3, OrderIdSlot.Order (settledOrder 2))]
  ordersByMarketOutcome := [(mEx, 0, 1), (mEx, 0, 2), (mEx, 0, 3)]
  nonZeroOrdersByMarketOutcome := [(mEx, 0, 1), (mEx, 0, 2), (mEx, 0, 3)]
  orderNeedsUpdate := []

/-- An order with one contract waiting for a match (used as an
authoritative record in the sync and recovery examples). -/
def waitingOrder : Order :=
  { market := mEx, outcome := 0, side := Side.buy, price := 250,
    quantity_waiting_for_match := 1, contract_of_outcome_balance := 0,
    bitcoin_balance := 0 }

/-- Authoritative order set for the gap-recovery example: orders exist
exactly at ids 0, 1, 2, 5 and 6. -/
def fed7 : Nat → Option Order := fun id =>
  if id = 0 ∨ id = 1 ∨ id = 2 ∨ id = 5 ∨ id = 6 then some waitingOrder else none

/-- Cache for the sync example: empty tables except a needs-update flag
on order 0. -/
def dbSyncEx : ClientDb := ⟨[], [], [], [0]⟩

/-- Authoritative state for the sync example: only order 0 exists. -/
def fedSyncEx : Nat → Option Order := fun id =>
  if id = 0 then some waitingOrder else none

/-- Payout-control weight map of the aggregation example:
A = 1, B = 2, C = 3 with weights 1, 1, 2. -/
def wmEx : List (Nat × Nat) := [(1, 1), (2, 1), (3, 2)]

/-- The payout vector V of the aggregation example. -/
def vEx : List Nat := [100, 0]

/-- Attestation from identity A (weight 1) for V. -/
def attA : Attestation := ⟨10, 1, vEx⟩

/-- Attestation from identity B (weight 1) for V. -/
def attB : Attestation := ⟨20, 2, vEx⟩

/-- Attestation from identity C (weight 2) for V. -/
def attC : Attestation := ⟨30, 3, vEx⟩

/-- Attestation from an identity absent from the weight map. -/
def attD : Attestation := ⟨40, 99, vEx⟩

/-- Cache whose only entry is a `Reserved` slot at order id 0. -/
def dbRes : ClientDb := ⟨[(0, OrderIdSlot.Reserved)], [], [], []⟩

/-! Helper lemmas about the ordered-table primitives. -/

theorem mem_insertNat (x i : Nat) (l : List Nat) :
    i ∈ insertNat x l ↔ i = x ∨ i ∈ l := by
  induction l with
  | nil => simp [insertNat]
  | cons y ys ih =>
    by_cases h1 : x < y
    · simp [insertNat, h1]
    · by_cases h2 : x = y
      · subst h2
        simp only [insertNat, if_neg h1, if_pos rfl]
        exact ⟨fun h => Or.inr h,
          fun h => h.elim (fun hh => hh ▸ List.mem_cons_self _ _) id⟩
      · simp only [insertNat, if_neg h1, if_neg h2, List.mem_cons, ih]
        tauto

theorem mem_removeNat (x i : Nat) (l : List Nat) :
    i ∈ removeNat x l ↔ i ∈ l ∧ i ≠ x := by
  simp [removeNat, List.mem_filter]

theorem mem_insertMOKey (k k2 : MOKey) (l : List MOKey) :
    k2 ∈ insertMOKey k l ↔ k2 = k ∨ k2 ∈ l := by
  induction l with
  | nil => simp [insertMOKey]
  | cons y ys ih =>
    by_cases h1 : moLt k y = true
    · simp [insertMOKey, h1]
    · by_cases h2 : k = y
      · subst h2
        simp only [insertMOKey, if_neg h1, if_pos rfl]
        exact ⟨fun h => Or.inr h,
          fun h => h.elim (fun hh => hh ▸ List.mem_cons_self _ _) id⟩
      · simp only [insertMOKey, if_neg h1, if_neg h2, List.mem_cons, ih]
        tauto

theorem mem_removeMOKey (k k2 : MOKey) (l : List MOKey) :
    k2 ∈ removeMOKey k l ↔ k2 ∈ l ∧ k2 ≠ k := by
  simp [removeMOKey, List.mem_filter]

theorem lookupSlot_insertSlot (x y : Nat) (v : OrderIdSlot) (l : List (Nat × OrderIdSlot)) :
    lookupSlot (insertSlot x v l) y = if y = x then some v else lookupSlot l y := by
  induction l with
  | nil => simp [insertSlot, lookupSlot]
  | cons p rest ih =>
    obtain ⟨k, w⟩ := p
    by_cases h1 : x < k
    · by_cases hyx : y = x <;> simp [insertSlot, h1, lookupSlot, hyx]
    · by_cases h2 : x = k
      · subst h2
        simp only [insertSlot, if_neg h1, if_pos rfl]
        by_cases hyx : y = x <;> simp [lookupSlot, hyx]
      · simp only [insertSlot, if_neg h1, if_neg h2]
        by_cases hyk : y = k
        · have hyx : ¬ y = x := by rw [hyk]; exact fun hh => h2 hh.symm
          have hkx : ¬ k = x := fun hh => h2 hh.symm
          simp [lookupSlot, hyk, hyx, hkx]
        · simp [lookupSlot, hyk, ih]

theorem lookupSlot_removeSlot (x y : Nat) (l : List (Nat × OrderIdSlot)) :
    lookupSlot (removeSlot x l) y = if y = x then none else lookupSlot l y := by
  induction l with
  | nil => simp [removeSlot, lookupSlot]
  | cons p rest ih =>
    obtain ⟨k, w⟩ := p
    by_cases hkx : k = x
    · subst hkx
      have hfilter : removeSlot k ((k, w) :: rest) = removeSlot k rest := by
        simp [removeSlot]
      rw [hfilter, ih]
      by_cases hyk : y = k
      · simp [hyk]
      · simp [lookupSlot, hyk]
    · have hfilter : removeSlot x ((k, w) :: rest) = (k, w) :: removeSlot x rest := by
        simp [removeSlot, hkx]
      rw [hfilter]
      by_cases hyk : y = k
      · have hyx : ¬ y = x := by rw [hyk]; exact hkx
        simp [lookupSlot, hyk, hyx, hkx]
      · simp [lookupSlot, hyk, ih]

theorem mem_foldl_insertNat (sources : List Nat) (init : List Nat) (i : Nat) :
    i ∈ sources.foldl (fun l s => insertNat s l) init ↔ i ∈ sources ∨ i ∈ init := by
  induction sources generalizing init with
  | nil => simp
  | cons s rest ih =>
    simp [List.foldl_cons, ih, mem_insertNat]
    tauto

theorem get_order_cached_save_other (db : ClientDb) (id id2 : Nat) (o : Order)
    (h : id ≠ id2) :
    get_order_cached (save_order_to_db db id2 o) id = get_order_cached db id := by
  simp [get_order_cached, save_order_to_db, lookupSlot_insertSlot, h]

/-! Lemmas about the sell-sourcing loop. -/

theorem sourceLoop_isSome (db : ClientDb) (q : Nat) (cands : List Nat)
    (h : ∀ id ∈ cands, (get_order_cached db id).isSome) :
    ∀ (s : Nat) (acc : List (Nat × Nat)), (sourceLoop db q cands s acc).isSome := by
  induction cands with
  | nil => intro s acc; simp [sourceLoop]
  | cons id rest ih =>
    intro s acc
    have hid := h id (List.mem_cons_self _ _)
    have hrest : ∀ i ∈ rest, (get_order_cached db i).isSome :=
      fun i hi => h i (List.mem_cons_of_mem _ hi)
    cases hcache : get_order_cached db id with
    | none => rw [hcache] at hid; simp at hid
    | some o =>
      simp only [sourceLoop, hcache]
      by_cases hz : o.contract_of_outcome_balance = 0
      · simpa [hz] using ih hrest s acc
      · simp only [if_neg hz]
        by_cases hbreak : q = s + min o.contract_of_outcome_balance (q - s)
        · simp [if_pos hbreak]
        · simpa [if_neg hbreak] using ih hrest _ _

theorem sourceLoop_sum (db : ClientDb) (q : Nat) (cands : List Nat) :
    ∀ (s : Nat) (acc acc2 : List (Nat × Nat)) (s2 : Nat),
      sourceLoop db q cands s acc = some (acc2, s2) →
      s2 + sumAmounts acc = s + sumAmounts acc2 := by
  induction cands with
  | nil =>
    intro s acc acc2 s2 h
    simp [sourceLoop] at h
    obtain ⟨h1, h2⟩ := h
    subst h1
    subst h2
    rfl
  | cons id rest ih =>
    intro s acc acc2 s2 h
    cases hcache : get_order_cached db id with
    | none => simp [sourceLoop, hcache] at h
    | some o =>
      simp only [sourceLoop, hcache] at h
      by_cases hz : o.contract_of_outcome_balance = 0
      · rw [if_pos hz] at h
        exact ih s acc acc2 s2 h
      · rw [if_neg hz] at h
        by_cases hbreak : q = s + min o.contract_of_outcome_balance (q - s)
        · rw [if_pos hbreak] at h
          simp only [Option.some.injEq, Prod.mk.injEq] at h
          obtain ⟨ha, hs⟩ := h
          subst ha
          simp [sumAmounts]
          omega
        · rw [if_neg hbreak] at h
          have := ih _ _ _ _ h
          simp [sumAmounts] at this
          simp [sumAmounts]
          omega

theorem sourceLoop_min (db : ClientDb) (q : Nat) (cands : List Nat) :
    ∀ (s : Nat) (acc acc2 : List (Nat × Nat)) (s2 : Nat),
      s ≤ q →
      sourceLoop db q cands s acc = some (acc2, s2) →
      s2 = min q (s + sumBal db cands) := by
  induction cands with
  | nil =>
    intro s acc acc2 s2 hs h
    simp [sourceLoop] at h
    simp [sumBal]
    omega
  | cons id rest ih =>
    intro s acc acc2 s2 hs h
    cases hcache : get_order_cached db id with
    | none => simp [sourceLoop, hcache] at h
    | some o =>
      have hsum : sumBal db (id :: rest) =
          o.contract_of_outcome_balance + sumBal db rest := by
        simp [sumBal, hcache]
      simp only [sourceLoop, hcache] at h
      by_cases hz : o.contract_of_outcome_balance = 0
      · rw [if_pos hz] at h
        have := ih s acc acc2 s2 hs h
        rw [hsum, hz]
        omega
      · rw [if_neg hz] at h
        by_cases hbreak : q = s + min o.contract_of_outcome_balance (q - s)
        · rw [if_pos hbreak] at h
          simp only [Option.some.injEq, Prod.mk.injEq] at h
          obtain ⟨ha, hs2⟩ := h
          rw [hsum]
          omega
        · rw [if_neg hbreak] at h
          have hle : s + min o.contract_of_outcome_balance (q - s) ≤ q := by omega
          have := ih _ _ _ _ hle h
          rw [hsum]
          omega

/-- Claim C1: the sell-sourcing loop scans the non-zero orders of the
(market, outcome) in ascending id order, skips zero-balance candidates,
takes `min(balance, remaining)` from each and stops when the accumulated
amount equals the requested quantity; on success the sourced amounts sum
to the requested quantity, and with candidate balances [3, 5, 2] and a
request of 7 the sources map is exactly order 1 ↦ 3, order 2 ↦ 4 with
order 3 untouched. -/
theorem claim_C1_sell_sourcing (db : ClientDb) (market : OutPoint)
    (outcome price quantity : Nat) (db2 : ClientDb) (oid : Nat)
    (srcs : List (Nat × Nat)) :
    new_order_sell dbEx mEx 0 1000 7 =
      SellResult.success (db_new_order dbEx 4) 4 [(1, 3), (2, 4)] ∧
    (new_order_sell db market outcome price quantity = SellResult.success db2 oid srcs →
      sumAmounts srcs = quantity) := by
  constructor
  · decide
  · intro h
    simp only [new_order_sell] at h
    split at h
    · simp at h
    · rename_i sources sourced heq
      split at h
      · rename_i hq
        injection h with h1 h2 h3
        have hsum := sourceLoop_sum db quantity _ 0 [] sources sourced heq
        have hnil : sumAmounts ([] : List (Nat × Nat)) = 0 := rfl
        rw [← h3]
        omega
      · simp at h

/-- Witness for claim C1 at the concrete fixture: the sourced amounts of
the produced sources map sum to the requested quantity 7. -/
theorem claim_C1_sell_sourcing_witness : sumAmounts [(1, 3), (2, 4)] = 7 :=
  (claim_C1_sell_sourcing dbEx mEx 0 1000 7 (db_new_order dbEx 4) 4 [(1, 3), (2, 4)]).2
    (claim_C1_sell_sourcing dbEx mEx 0 1000 7 (db_new_order dbEx 4) 4 [(1, 3), (2, 4)]).1

/-- Claim C2: when the requested sell quantity exceeds the total settled
balance of all candidates, `new_order` bails with the
insufficient-liquidity error before `db_new_order` and `commit_tx`, so
no transaction is built and the returned database is the unchanged
input (in particular no `Reserved` slot is committed). -/
theorem claim_C2_insufficient_liquidity (db : ClientDb) (market : OutPoint)
    (outcome price quantity : Nat)
    (hcand : ∀ id ∈ scanNonZero db market outcome, (get_order_cached db id).isSome)
    (hq : sumBal db (scanNonZero db market outcome) < quantity) :
    new_order_sell db market outcome price quantity = SellResult.insufficient db := by
  have hsome := sourceLoop_isSome db quantity _ hcand 0 []
  cases hloop : sourceLoop db quantity (scanNonZero db market outcome) 0 [] with
  | none => rw [hloop] at hsome; simp at hsome
  | some p =>
    obtain ⟨acc, s⟩ := p
    have hmin := sourceLoop_min db quantity _ 0 [] acc s (Nat.zero_le _) hloop
    have hne : ¬ quantity = s := by omega
    simp only [new_order_sell]
    rw [hloop]
    simp [hne]

/-- Witness for claim C2: requesting 11 against total candidate balance
10 fails with insufficient liquidity and leaves the database unchanged. -/
theorem claim_C2_insufficient_liquidity_witness :
    new_order_sell dbEx mEx 0 1000 11 = SellResult.insufficient dbEx :=
  claim_C2_insufficient_liquidity dbEx mEx 0 1000 11 (by decide) (by decide)

/-- Claim C8: an `Order` written through `save_order_to_db` reads back
identically through the cache accessor, and its (market, outcome, id)
key is present in the non-zero index exactly when one of its three
balance fields is nonzero. -/
theorem claim_C8_cache_round_trip (db : ClientDb) (id : Nat) (o : Order) :
    get_order_cached (save_order_to_db db id o) id = some o ∧
    ((o.market, o.outcome, id) ∈ (save_order_to_db db id o).nonZeroOrdersByMarketOutcome ↔
      (o.quantity_waiting_for_match ≠ 0 ∨ o.contract_of_outcome_balance ≠ 0 ∨
        o.bitcoin_balance ≠ 0)) := by
  constructor
  · simp [get_order_cached, save_order_to_db, lookupSlot_insertSlot]
  · by_cases hc : o.quantity_waiting_for_match ≠ 0 ∨ o.contract_of_outcome_balance ≠ 0 ∨
        o.bitcoin_balance ≠ 0
    · simp only [save_order_to_db, if_pos hc]
      simp [mem_insertMOKey, hc]
    · simp only [save_order_to_db, if_neg hc]
      simp [mem_removeMOKey, hc]

/-- Claim C9: a `Reserved` cache slot reads back as `None` through the
cache accessor, exactly like an absent slot: reserving with
`db_new_order` or removing the slot entirely are indistinguishable to a
cached `get_order`. -/
theorem claim_C9_reserved_reads_none (db : ClientDb) (id : Nat)
    (h : lookupSlot db.orders id = some OrderIdSlot.Reserved) :
    get_order_cached db id = none ∧
    get_order_cached (db_new_order db id) id = none ∧
    get_order_cached { db with orders := removeSlot id db.orders } id = none := by
  refine ⟨?_, ?_, ?_⟩
  · simp [get_order_cached, h]
  · simp [get_order_cached, db_new_order, lookupSlot_insertSlot]
  · simp [get_order_cached, lookupSlot_removeSlot]

/-- Witness for claim C9 at a cache holding a `Reserved` slot at id 0. -/
theorem claim_C9_reserved_reads_none_witness :
    get_order_cached dbRes 0 = none ∧
    get_order_cached (db_new_order dbRes 0) 0 = none ∧
    get_order_cached { dbRes with orders := removeSlot 0 dbRes.orders } 0 = none :=
  claim_C9_reserved_reads_none dbRes 0 rfl

/-- Claim C3: on Accepted, the new-order transition marks dirty exactly
the target order id and every source id of its context; on Failed it
releases the `Reserved` slot of the target id; the cancel-order and
consume-order-bitcoin-balance transitions mark only the affected order
dirty on Accepted and change nothing on Failed; the new-market,
propose-payout and consume-payout-control-bitcoin-balance transitions
change no cache state in either outcome — so the new-order transition is
the only one with a rollback on failure. -/
theorem claim_C3_finality_side_effects (db : ClientDb) (t order : Nat)
    (sources : List Nat) (res : Bool) (i : Nat) :
    ((i ∈ (fire (PredictionMarketState.NewOrder t order sources) true db).1.orderNeedsUpdate ↔
        (i = order ∨ i ∈ sources ∨ i ∈ db.orderNeedsUpdate)) ∧
      (fire (PredictionMarketState.NewOrder t order sources) true db).1.orders = db.orders ∧
      (fire (PredictionMarketState.NewOrder t order sources) true db).1.ordersByMarketOutcome =
        db.ordersByMarketOutcome ∧
      (fire (PredictionMarketState.NewOrder t order sources) true
          db).1.nonZeroOrdersByMarketOutcome = db.nonZeroOrdersByMarketOutcome ∧
      (fire (PredictionMarketState.NewOrder t order sources) true db).2 =
        PredictionMarketState.NewOrderAccepted) ∧
    (lookupSlot (fire (PredictionMarketState.NewOrder t order sources) false db).1.orders
        order = none ∧
      (i ≠ order →
        lookupSlot (fire (PredictionMarketState.NewOrder t order sources) false db).1.orders i =
          lookupSlot db.orders i) ∧
      (fire (PredictionMarketState.NewOrder t order sources) false db).1.orderNeedsUpdate =
        db.orderNeedsUpdate ∧
      (fire (PredictionMarketState.NewOrder t order sources) false db).1.ordersByMarketOutcome =
        db.ordersByMarketOutcome ∧
      (fire (PredictionMarketState.NewOrder t order sources) false
          db).1.nonZeroOrdersByMarketOutcome = db.nonZeroOrdersByMarketOutcome ∧
      (fire (PredictionMarketState.NewOrder t order sources) false db).2 =
        PredictionMarketState.NewOrderFailed) ∧
    (fire (PredictionMarketState.CancelOrder t order) true db).1 =
      { db with orderNeedsUpdate := insertNat order db.orderNeedsUpdate } ∧
    (fire (PredictionMarketState.CancelOrder t order) false db).1 = db ∧
    (fire (PredictionMarketState.ConsumeOrderBitcoinBalance t order) true db).1 =
      { db with orderNeedsUpdate := insertNat order db.orderNeedsUpdate } ∧
    (fire (PredictionMarketState.ConsumeOrderBitcoinBalance t order) false db).1 = db ∧
    (fire (PredictionMarketState.NewMarket t) res db).1 = db ∧
    (fire (PredictionMarketState.ProposePayout t) res db).1 = db ∧
    (fire (PredictionMarketState.ConsumePayoutControlBitcoinBalance t) res db).1 = db := by
  refine ⟨⟨?_, rfl, rfl, rfl, rfl⟩, ⟨?_, ?_, rfl, rfl, rfl, rfl⟩, rfl, rfl, rfl, rfl,
    ?_, ?_, ?_⟩
  · simp only [fire, transitions, if_true, new_order_accepted]
    rw [mem_foldl_insertNat]
    simp only [mem_insertNat]
    tauto
  · simp [fire, transitions, new_order_failed, lookupSlot_removeSlot]
  · intro hne
    simp [fire, transitions, new_order_failed, lookupSlot_removeSlot, hne]
  · cases res <;> rfl
  · cases res <;> rfl
  · cases res <;> rfl

/-- Witness for claim C3 at a concrete state: accepting a new-order
transaction with target 0 and source 2 marks id 1 dirty only if it was
already dirty, and failing it clears slot 0 while leaving slot 1 alone. -/
theorem claim_C3_finality_side_effects_witness :
    ((1 : Nat) ∈
        (fire (PredictionMarketState.NewOrder 0 0 [2]) true dbRes).1.orderNeedsUpdate ↔
      ((1 : Nat) = 0 ∨ (1 : Nat) ∈ [2] ∨ (1 : Nat) ∈ dbRes.orderNeedsUpdate)) ∧
    lookupSlot (fire (PredictionMarketState.NewOrder 0 0 [2]) false dbRes).1.orders 0 =
      none ∧
    lookupSlot (fire (PredictionMarketState.NewOrder 0 0 [2]) false dbRes).1.orders 1 =
      lookupSlot dbRes.orders 1 :=
  ⟨(claim_C3_finality_side_effects dbRes 0 0 [2] true 1).1.1,
    (claim_C3_finality_side_effects dbRes 0 0 [2] true 1).2.1.1,
    (claim_C3_finality_side_effects dbRes 0 0 [2] true 1).2.1.2.1 (by decide)⟩

/-- Claim C4: each of the six operation kinds follows
Submitted → Accepted or Failed; a state yields no transitions exactly
when it is terminal, a non-terminal state yields exactly one transition,
the post-state of delivering any finality resolution is terminal, and
delivering a resolution to a terminal state changes nothing — so a
replayed resolution can neither fire a second transition nor double-apply
dirty-marking or slot release. -/
theorem claim_C4_terminal_states (s : PredictionMarketState) (res : Bool) (db : ClientDb) :
    (transitions s = [] ↔ isTerminal s = true) ∧
    ((transitions s).length = 1 ∨ isTerminal s = true) ∧
    isTerminal (fire s res db).2 = true ∧
    (isTerminal s = true → fire s res db = (db, s)) := by
  cases s <;> cases res <;>
    simp [transitions, isTerminal, fire]

/-- Witness for claim C4: a terminal state (an accepted new order) has no
transitions and absorbs a replayed resolution unchanged. -/
theorem claim_C4_terminal_states_witness :
    isTerminal
        (fire PredictionMarketState.NewOrderAccepted false emptyDb).2 = true ∧
    fire PredictionMarketState.NewOrderAccepted false emptyDb =
      (emptyDb, PredictionMarketState.NewOrderAccepted) :=
  ⟨(claim_C4_terminal_states PredictionMarketState.NewOrderAccepted false emptyDb).2.2.1,
    (claim_C4_terminal_states PredictionMarketState.NewOrderAccepted false
      emptyDb).2.2.2 rfl⟩

/-! Lemmas about the payout-aggregation selection. -/

theorem selectPayout_eq_none (th : Nat) (l : List (List Nat × List Nat × Nat)) :
    selectPayout th l = none ↔ ∀ e ∈ l, e.2.2 < th := by
  induction l with
  | nil => simp [selectPayout]
  | cons e rest ih =>
    obtain ⟨ep, evs, tw⟩ := e
    by_cases hth : th ≤ tw
    · simp only [selectPayout, if_pos hth]
      constructor
      · intro h
        exact absurd h (by simp)
      · intro h
        have := h (ep, evs, tw) (List.mem_cons_self _ _)
        simp at this
        omega
    · simp only [selectPayout, if_neg hth]
      rw [ih]
      constructor
      · intro h e he
        rcases List.mem_cons.mp he with he1 | he2
        · subst he1
          simp
          omega
        · exact h e he2
      · intro h e he
        exact h e (List.mem_cons_of_mem _ he)

theorem selectPayout_eq_some (th : Nat) (l : List (List Nat × List Nat × Nat))
    (ep evs : List Nat) (h : selectPayout th l = some (ep, evs)) :
    ∃ w, (ep, evs, w) ∈ l ∧ th ≤ w := by
  induction l with
  | nil => simp [selectPayout] at h
  | cons e rest ih =>
    obtain ⟨ep2, evs2, tw⟩ := e
    by_cases hth : th ≤ tw
    · rw [selectPayout, if_pos hth] at h
      simp only [Option.some.injEq, Prod.mk.injEq] at h
      exact ⟨tw, by simp [h.1, h.2], hth⟩
    · rw [selectPayout, if_neg hth] at h
      obtain ⟨w, hw, hthw⟩ := ih h
      exact ⟨w, List.mem_cons_of_mem _ hw, hthw⟩

/-- Claim C6: the payout aggregation ignores attestations from
identities absent from the weight map, keeps only the first attestation
of each identity, and submits a payout exactly when some group of
identical payout vectors reaches the weight threshold, carrying that
group's evidence; with weight map A ↦ 1, B ↦ 1, C ↦ 2 and threshold 2,
attestations from A and C for the vector V yield a payout with V and
both pieces of evidence, while a lone attestation from B yields none. -/
theorem claim_C6_payout_aggregation (wm : List (Nat × Nat)) (th : Nat)
    (atts : List Attestation) (a : Attestation) (rest : List Attestation)
    (seen : List Nat) (stats : List (List Nat × List Nat × Nat)) (ep evs : List Nat) :
    (payout_market wm th atts = none ↔ ∀ e ∈ attLoop wm [] [] atts, e.2.2 < th) ∧
    (payout_market wm th atts = some (ep, evs) →
      ∃ w, (ep, evs, w) ∈ attLoop wm [] [] atts ∧ th ≤ w) ∧
    (lookupWeight wm a.payout_control = none →
      attLoop wm seen stats (a :: rest) = attLoop wm seen stats rest) ∧
    (a.payout_control ∈ seen →
      attLoop wm seen stats (a :: rest) = attLoop wm seen stats rest) ∧
    payout_market wmEx 2 [attA, attC] = some (vEx, [10, 30]) ∧
    payout_market wmEx 2 [attB] = none := by
  refine ⟨selectPayout_eq_none th _, fun h => selectPayout_eq_some th _ ep evs h,
    ?_, ?_, by decide, by decide⟩
  · intro h
    simp [attLoop, h]
  · intro h
    cases hw : lookupWeight wm a.payout_control with
    | none => simp [attLoop, hw]
    | some w => simp [attLoop, hw, h]

/-- Witness for claim C6: the A-and-C example yields a payout group
containing V with weight at least the threshold, and prepending an
attestation from an unknown identity to an attestation list changes
nothing. -/
theorem claim_C6_payout_aggregation_witness :
    (∃ w, (vEx, [10, 30], w) ∈ attLoop wmEx [] [] [attA, attC] ∧ 2 ≤ w) ∧
    attLoop wmEx [] [] [attD, attA] = attLoop wmEx [] [] [attA] :=
  ⟨(claim_C6_payout_aggregation wmEx 2 [attA, attC] attD [attA] [] [] vEx
      [10, 30]).2.1 (by decide),
    (claim_C6_payout_aggregation wmEx 2 [attA, attC] attD [attA] [] [] vEx
      [10, 30]).2.2.1 (by decide)⟩

/-- Claim C7: the recovery scan queries ids 0, 1, 2, … in sequence,
resets the miss counter on every hit and increments it on every miss,
stopping when the counter reaches the gap threshold: with authoritative
orders exactly at ids 0, 1, 2, 5, 6 and threshold 3 it queries exactly
ids 0 through 9 (three consecutive misses beyond the last hit) and
persists exactly the orders 0, 1, 2, 5, 6. -/
theorem claim_C7_gap_recovery :
    (recover_orders fed7 3 20 emptyDb).map (fun r => (r.1, r.2.1)) =
      some ([0, 1, 2, 3, 4, 5, 6, 7, 8, 9], [0, 1, 2, 5, 6]) := by
  decide

/-! Lemmas about the reconciler's candidate selection and fetch loop. -/

theorem mem_filterSyncCandidates (db : ClientDb) (spp : Bool) (i : Nat) :
    ∀ (l keep : List Nat), filterSyncCandidates db spp l = some keep →
      (i ∈ keep ↔ i ∈ l ∧ ∃ o, get_order_cached db i = some o ∧
        (o.quantity_waiting_for_match ≠ 0 ∨
          (spp = true ∧ o.contract_of_outcome_balance ≠ 0))) := by
  intro l
  induction l with
  | nil =>
    intro keep h
    simp [filterSyncCandidates] at h
    subst h
    simp
  | cons id rest ih =>
    intro keep h
    simp only [filterSyncCandidates] at h
    split at h
    · exact absurd h (by simp)
    · rename_i o hcache
      split at h
      · exact absurd h (by simp)
      · rename_i l2 hrec
        have hcond : (o.quantity_waiting_for_match ≠ 0 ∨
            (spp = true ∧ o.contract_of_outcome_balance ≠ 0)) ↔
            ¬ (o.quantity_waiting_for_match = 0 ∧
              (spp = false ∨ o.contract_of_outcome_balance = 0)) := by
          cases spp <;> simp <;> tauto
        split at h
        · rename_i hskip
          injection h with h2
          subst h2
          rw [ih l2 hrec]
          constructor
          · rintro ⟨hmem, ho⟩
            exact ⟨List.mem_cons_of_mem _ hmem, ho⟩
          · rintro ⟨hmem, o2, hc2, ho2⟩
            rcases List.mem_cons.mp hmem with hi | hi
            · exfalso
              subst hi
              rw [hcache] at hc2
              injection hc2 with ho3
              subst ho3
              exact (hcond.mp ho2) hskip
            · exact ⟨hi, o2, hc2, ho2⟩
        · rename_i hskip
          injection h with h2
          subst h2
          rw [List.mem_cons, ih l2 hrec]
          constructor
          · rintro (hi | ⟨hmem, ho⟩)
            · subst hi
              exact ⟨List.mem_cons_self _ _, o, hcache, hcond.mpr hskip⟩
            · exact ⟨List.mem_cons_of_mem _ hmem, ho⟩
          · rintro ⟨hmem, o2, hc2, ho2⟩
            rcases List.mem_cons.mp hmem with hi | hi
            · exact Or.inl hi
            · exact Or.inr ⟨hi, o2, hc2, ho2⟩

theorem mem_fetchLoop (fed : Nat → Option Order) (market : Option OutPoint)
    (outcome : Option Nat) (db0 : ClientDb) (i : Nat) (o : Order) :
    ∀ (l : List Nat) (db1 : ClientDb) (acc : List (Nat × Order)) (dbF : ClientDb)
      (changed : List (Nat × Order)),
      l.Nodup →
      (∀ j ∈ l, get_order_cached db1 j = get_order_cached db0 j) →
      fetchLoop fed market outcome db1 l acc = some (dbF, changed) →
      ((i, o) ∈ changed ↔ (i, o) ∈ acc ∨
        (i ∈ l ∧ fed i = some o ∧ get_order_cached db0 i ≠ some o ∧
          marketOk market o = true ∧ outcomeOk outcome o = true)) := by
  intro l
  induction l with
  | nil =>
    intro db1 acc dbF changed _ _ h
    simp [fetchLoop] at h
    obtain ⟨h1, h2⟩ := h
    subst h2
    simp
  | cons id rest ih =>
    intro db1 acc dbF changed hnodup hinv h
    obtain ⟨hnotmem, hnodup2⟩ := List.nodup_cons.mp hnodup
    have hid : get_order_cached db1 id = get_order_cached db0 id :=
      hinv id (List.mem_cons_self _ _)
    simp only [fetchLoop] at h
    split at h
    · rename_i o2 hfed
      have hinv2 : ∀ j ∈ rest, get_order_cached (save_order_to_db db1 id o2) j =
          get_order_cached db0 j := by
        intro j hj
        have hne : j ≠ id := fun hh => hnotmem (hh ▸ hj)
        rw [get_order_cached_save_other db1 j id o2 hne]
        exact hinv j (List.mem_cons_of_mem _ hj)
      split at h
      · rename_i heqc
        rw [ih _ _ _ _ hnodup2 hinv2 h]
        constructor
        · rintro (ha | ⟨hmem, hrest⟩)
          · exact Or.inl ha
          · exact Or.inr ⟨List.mem_cons_of_mem _ hmem, hrest⟩
        · rintro (ha | ⟨hmem, hfed2, hneq, hmk, hoc⟩)
          · exact Or.inl ha
          · rcases List.mem_cons.mp hmem with hi | hi
            · exfalso
              subst hi
              rw [hfed] at hfed2
              injection hfed2 with ho
              subst ho
              rw [hid] at heqc
              exact hneq heqc
            · exact Or.inr ⟨hi, hfed2, hneq, hmk, hoc⟩
      · rename_i heqc
        split at h
        · rename_i hpass
          have hab : marketOk market o2 = true ∧ outcomeOk outcome o2 = true := by
            simpa using hpass
          rw [ih _ _ _ _ hnodup2 hinv2 h]
          constructor
          · rintro (ha | ⟨hmem, hrest⟩)
            · rcases List.mem_append.mp ha with h1 | h1
              · exact Or.inl h1
              · have hio : i = id ∧ o = o2 := by simpa using h1
                obtain ⟨hi, ho⟩ := hio
                subst hi
                subst ho
                refine Or.inr ⟨List.mem_cons_self _ _, hfed, ?_, hab.1, hab.2⟩
                rw [← hid]
                exact heqc
            · exact Or.inr ⟨List.mem_cons_of_mem _ hmem, hrest⟩
          · rintro (ha | ⟨hmem, hfed2, hneq, hmk, hoc⟩)
            · exact Or.inl (List.mem_append.mpr (Or.inl ha))
            · rcases List.mem_cons.mp hmem with hi | hi
              · subst hi
                rw [hfed] at hfed2
                injection hfed2 with ho
                subst ho
                exact Or.inl (List.mem_append.mpr (Or.inr (by simp)))
              · exact Or.inr ⟨hi, hfed2, hneq, hmk, hoc⟩
        · rename_i hpass
          rw [ih _ _ _ _ hnodup2 hinv2 h]
          constructor
          · rintro (ha | ⟨hmem, hrest⟩)
            · exact Or.inl ha
            · exact Or.inr ⟨List.mem_cons_of_mem _ hmem, hrest⟩
          · rintro (ha | ⟨hmem, hfed2, hneq, hmk, hoc⟩)
            · exact Or.inl ha
            · rcases List.mem_cons.mp hmem with hi | hi
              · exfalso
                subst hi
                rw [hfed] at hfed2
                injection hfed2 with ho
                subst ho
                exact hpass (by rw [hmk, hoc]; rfl)
              · exact Or.inr ⟨hi, hfed2, hneq, hmk, hoc⟩
    · rename_i hfed
      split at h
      · rename_i hcache
        rw [ih _ _ _ _ hnodup2 (fun j hj => hinv j (List.mem_cons_of_mem _ hj)) h]
        constructor
        · rintro (ha | ⟨hmem, hrest⟩)
          · exact Or.inl ha
          · exact Or.inr ⟨List.mem_cons_of_mem _ hmem, hrest⟩
        · rintro (ha | ⟨hmem, hfed2, hneq, hmk, hoc⟩)
          · exact Or.inl ha
          · rcases List.mem_cons.mp hmem with hi | hi
            · exfalso
              subst hi
              rw [hfed] at hfed2
              exact Option.noConfusion hfed2
            · exact Or.inr ⟨hi, hfed2, hneq, hmk, hoc⟩
      · rename_i o3 hcache
        exact absurd h (by simp)

/-- Claim C5: the reconciler fetches from the federation exactly the
union of the needs-update set and the non-zero orders (restricted to the
market/outcome prefix when given) with nonzero waiting quantity — plus,
when payout syncing is on, nonzero settled balance; and an order is in
the returned change map exactly when its authoritative value exists,
differs from the cached value, and passes the market and outcome filters
applied to the authoritative record. -/
theorem claim_C5_sync_candidates (db : ClientDb) (fed : Nat → Option Order) (spp : Bool)
    (market : Option OutPoint) (outcome : Option Nat) (fetched : List Nat)
    (db2 : ClientDb) (changed : List (Nat × Order)) (i : Nat) (o : Order)
    (h : sync_orders db fed spp market outcome = some (fetched, db2, changed)) :
    (i ∈ fetched ↔ (i ∈ db.orderNeedsUpdate ∨
      (i ∈ scanNonZeroFiltered db market outcome ∧ ∃ oc, get_order_cached db i = some oc ∧
        (oc.quantity_waiting_for_match ≠ 0 ∨
          (spp = true ∧ oc.contract_of_outcome_balance ≠ 0))))) ∧
    ((i, o) ∈ changed ↔ (i ∈ fetched ∧ fed i = some o ∧
      get_order_cached db i ≠ some o ∧ marketOk market o = true ∧
      outcomeOk outcome o = true)) := by
  simp only [sync_orders] at h
  split at h
  · exact absurd h (by simp)
  · rename_i keep hkeep
    split at h
    · exact absurd h (by simp)
    · rename_i db2p changedp hfetch
      simp only [Option.some.injEq, Prod.mk.injEq] at h
      obtain ⟨hfetched, hdb2, hchanged⟩ := h
      subst hdb2
      subst hchanged
      constructor
      · rw [← hfetched, List.mem_dedup, List.mem_append,
          mem_filterSyncCandidates db spp i _ keep hkeep]
        exact or_comm
      · rw [mem_fetchLoop fed market outcome db i o _ db [] db2p changedp
          (List.nodup_dedup _) (fun j _ => rfl) hfetch, hfetched]
        simp

/-- Witness for claim C5 at a concrete reconciliation: with an empty
cache whose needs-update set is exactly order 0 and a federation holding
order 0, the fetched set is exactly 0 and the change map holds exactly
the authoritative order 0. -/
theorem claim_C5_sync_candidates_witness :
    ((0 : Nat) ∈ [0] ↔ ((0 : Nat) ∈ dbSyncEx.orderNeedsUpdate ∨
      ((0 : Nat) ∈ scanNonZeroFiltered dbSyncEx none none ∧
        ∃ oc, get_order_cached dbSyncEx 0 = some oc ∧
          (oc.quantity_waiting_for_match ≠ 0 ∨
            (true = true ∧ oc.contract_of_outcome_balance ≠ 0))))) ∧
    (((0 : Nat), waitingOrder) ∈ [((0 : Nat), waitingOrder)] ↔
      ((0 : Nat) ∈ [0] ∧ fedSyncEx 0 = some waitingOrder ∧
        get_order_cached dbSyncEx 0 ≠ some waitingOrder ∧
        marketOk none waitingOrder = true ∧ outcomeOk none waitingOrder = true)) :=
  claim_C5_sync_candidates dbSyncEx fedSyncEx true none none [0]
    (save_order_to_db dbSyncEx 0 waitingOrder) [(0, waitingOrder)] 0 waitingOrder
    (by decide)

/-! Lemmas about termination of the recovery scan.  The miss counter is a
u16, so it wraps modulo 65536; the stop test compares the wrapped
counter against the gap threshold. -/

theorem recoverLoop_step_hit (fed : Nat → Option Order) (gap fuel id misses : Nat)
    (q p : List Nat) (db : ClientDb) (o : Order) (hfed : fed id = some o) :
    recoverLoop fed gap (fuel + 1) id misses q p db =
      recoverLoop fed gap fuel (id + 1) 0 (q ++ [id]) (p ++ [id])
        (save_order_to_db db id o) := by
  simp [recoverLoop, hfed]

theorem recoverLoop_step_stop (fed : Nat → Option Order) (gap fuel id misses : Nat)
    (q p : List Nat) (db : ClientDb) (hfed : fed id = none)
    (hstop : (misses + 1) % 65536 = gap) :
    recoverLoop fed gap (fuel + 1) id misses q p db = some (q ++ [id], p, db) := by
  simp [recoverLoop, hfed, hstop]

theorem recoverLoop_step_miss (fed : Nat → Option Order) (gap fuel id misses : Nat)
    (q p : List Nat) (db : ClientDb) (hfed : fed id = none)
    (hstop : ¬ (misses + 1) % 65536 = gap) :
    recoverLoop fed gap (fuel + 1) id misses q p db =
      recoverLoop fed gap fuel (id + 1) ((misses + 1) % 65536) (q ++ [id]) p db := by
  simp [recoverLoop, hfed, hstop]

theorem recoverLoop_mono (fed : Nat → Option Order) (gap : Nat) :
    ∀ (f f2 id misses : Nat) (q p : List Nat) (db : ClientDb)
      (r : List Nat × List Nat × ClientDb), f ≤ f2 →
      recoverLoop fed gap f id misses q p db = some r →
      recoverLoop fed gap f2 id misses q p db = some r := by
  intro f
  induction f with
  | zero =>
    intro f2 id misses q p db r _ h
    simp [recoverLoop] at h
  | succ g ih =>
    intro f2 id misses q p db r hle h
    cases f2 with
    | zero => omega
    | succ g2 =>
      have hg : g ≤ g2 := by omega
      simp only [recoverLoop] at h ⊢
      cases hfed : fed id with
      | some o =>
        simp only [hfed] at h ⊢
        exact ih g2 _ _ _ _ _ _ hg h
      | none =>
        simp only [hfed] at h ⊢
        by_cases hstop : (misses + 1) % 65536 = gap
        · rw [if_pos hstop] at h ⊢
          exact h
        · rw [if_neg hstop] at h ⊢
          exact ih g2 _ _ _ _ _ _ hg h

theorem recover_allmiss (fed : Nat → Option Order) (gap : Nat) (hgap : gap < 65536) :
    ∀ (mu id misses : Nat) (q p : List Nat) (db : ClientDb),
      (∀ j, id ≤ j → fed j = none) →
      (gap + 65536 - ((misses + 1) % 65536)) % 65536 = mu →
      ∃ r, recoverLoop fed gap (mu + 1) id misses q p db = some r := by
  intro mu
  induction mu with
  | zero =>
    intro id misses q p db hall hmu
    have hfed : fed id = none := hall id (Nat.le_refl _)
    have hm : (misses + 1) % 65536 < 65536 := Nat.mod_lt _ (by omega)
    have hstop : (misses + 1) % 65536 = gap := by omega
    exact ⟨(q ++ [id], p, db), by simp [recoverLoop, hfed, hstop]⟩
  | succ nu ih =>
    intro id misses q p db hall hmu
    have hfed : fed id = none := hall id (Nat.le_refl _)
    have hm : (misses + 1) % 65536 < 65536 := Nat.mod_lt _ (by omega)
    by_cases hstop : (misses + 1) % 65536 = gap
    · exact ⟨(q ++ [id], p, db), by simp [recoverLoop, hfed, hstop]⟩
    · have hmu2 : (gap + 65536 - (((misses + 1) % 65536 + 1) % 65536)) % 65536 = nu := by
        omega
      obtain ⟨r, hr⟩ := ih (id + 1) ((misses + 1) % 65536) (q ++ [id]) p db
        (fun j hj => hall j (by omega)) hmu2
      refine ⟨r, ?_⟩
      simp only [recoverLoop, hfed]
      rw [if_neg hstop]
      exact hr

theorem recover_terminates_from (fed : Nat → Option Order) (gap N : Nat)
    (hgap : gap < 65536) (hN : ∀ j, N ≤ j → fed j = none) :
    ∀ (k id misses : Nat) (q p : List Nat) (db : ClientDb), N ≤ id + k →
      ∃ r, recoverLoop fed gap (k + 65536) id misses q p db = some r := by
  intro k
  induction k with
  | zero =>
    intro id misses q p db hk
    have hall : ∀ j, id ≤ j → fed j = none := fun j hj => hN j (by omega)
    have hmu : (gap + 65536 - ((misses + 1) % 65536)) % 65536 < 65536 :=
      Nat.mod_lt _ (by omega)
    obtain ⟨r, hr⟩ := recover_allmiss fed gap hgap _ id misses q p db hall rfl
    exact ⟨r, recoverLoop_mono fed gap _ _ id misses q p db r (by omega) hr⟩
  | succ k2 ih =>
    intro id misses q p db hk
    have hfuel : k2 + 1 + 65536 = (k2 + 65536) + 1 := by omega
    cases hfed : fed id with
    | some o =>
      obtain ⟨r, hr⟩ := ih (id + 1) 0 (q ++ [id]) (p ++ [id])
        (save_order_to_db db id o) (by omega)
      refine ⟨r, ?_⟩
      rw [hfuel, recoverLoop_step_hit fed gap (k2 + 65536) id misses q p db o hfed]
      exact hr
    | none =>
      by_cases hstop : (misses + 1) % 65536 = gap
      · refine ⟨(q ++ [id], p, db), ?_⟩
        rw [hfuel]
        exact recoverLoop_step_stop fed gap (k2 + 65536) id misses q p db hfed hstop
      · obtain ⟨r, hr⟩ := ih (id + 1) ((misses + 1) % 65536) (q ++ [id]) p db (by omega)
        refine ⟨r, ?_⟩
        rw [hfuel, recoverLoop_step_miss fed gap (k2 + 65536) id misses q p db hfed hstop]
        exact hr

/-- Claim C10 (amended): assuming the authoritative order set is finite
(no order exists at or beyond id N) and every query succeeds, the
recovery scan terminates for every u16 gap threshold — for thresholds
1 through 65535 by the documented stop condition, and for threshold 0
as well, because the u16 miss counter wraps to 0 after 65536 consecutive
misses and then equals the threshold; fuel N + 65536 always suffices. -/
theorem claim_C10_recover_terminates (fed : Nat → Option Order) (gap N : Nat)
    (db : ClientDb) (hgap : gap < 65536) (hN : ∀ j, N ≤ j → fed j = none) :
    ∃ r, recover_orders fed gap (N + 65536) db = some r :=
  recover_terminates_from fed gap N hgap hN N 0 0 [] [] db (by omega)

/-- Witness for claim C10 with gap threshold 3 and an empty authoritative
set. -/
theorem claim_C10_recover_terminates_witness :
    ∃ r, recover_orders (fun _ => none) 3 (0 + 65536) emptyDb = some r :=
  claim_C10_recover_terminates (fun _ => none) 3 0 emptyDb (by omega) (fun _ _ => rfl)

/-- Counterexample to claim C10 as stated: with gap threshold 0 the scan
is claimed never to terminate, but over an empty authoritative set it
terminates once the u16 miss counter wraps around to 0 after 65536
consecutive misses. -/
theorem claim_C10_gap_zero_counterexample :
    ∃ r, recover_orders (fun _ => none) 0 (0 + 65536) emptyDb = some r :=
  recover_terminates_from (fun _ => none) 0 0 (by omega) (fun _ _ => rfl) 0 0 0 [] []
    emptyDb (by omega)

end PredictionMarkets
